import Mathlib

/-!
A shallow embedding of the channel engine in `src/libstd/comm.rs` (the 2013
Rust runtime channels).  The embedding is sequential: each operation of the
`Packet` atomic state machine is modelled as a pure function on an explicit
`Packet` state.  Machine `int`s are modelled as unbounded `Int`; the only
sentinel the code compares against is `DISCONNECTED = int::min_value`, and
every atomic operation that could drive the counter past that sentinel
immediately restores it (`cnt.store(DISCONNECTED)`), so two's-complement
wraparound never changes any observable outcome modelled here.

Runtime effects are made explicit:
  * `fail!` / `assert!` / `take_unwrap()` failures become `none` results
    (the process aborts, the operation does not return);
  * waking, trashing and voluntary yielding become `WakeAction` events
    collected in a list;
  * the wake handle (`TaskHandle`) is opaque, modelled as `Unit`;
  * the SPSC/MPSC queues are modelled as a `List` with `pop = head`
    (the MPSC `Inconsistent` answer only arises from a concurrent
    in-flight push, which a sequential model has none of);
  * a blocking point that would suspend the caller is a `blocked` outcome.
-/

namespace Comm

/-- `static DISCONNECTED: int = int::min_value;` (64-bit). -/
def DISCONNECTED : Int := -(2 ^ 63)

/-- `static RESCHED_FREQ: int = 200;` -/
def RESCHED_FREQ : Int := 200

/-- Observable runtime effects of a packet operation: waking the task in the
wake slot (with the `can_resched` flag passed to `TaskHandle::wake`),
trashing a never-to-be-woken handle (`TaskHandle::trash`), or the voluntary
fairness yield (`imp::maybe_yield`). -/
inductive WakeAction where
  | wake (can_resched : Bool)
  | trash
  | maybeYield
deriving DecidableEq

/-- The shared `struct Packet`: the atomic item counter `cnt`, the
receiver-private `steals` counter, the wake slot `to_wake` (the `TaskHandle`
itself is opaque here), and the producer reference count `channels`.
The `data: TaskData` field (mutex + scheduler handle storage) carries no
state observable by the claims and is omitted. -/
structure Packet where
  cnt : Int
  steals : Int
  to_wake : Option Unit
  channels : Int
deriving DecidableEq

/-- `Packet::increment`: `fetch_add(1)` on `cnt`, re-storing `DISCONNECTED`
if the previous value was `DISCONNECTED`; returns the previous value. -/
def Packet.increment (p : Packet) : Packet × Int :=
  let prev := p.cnt
  if prev = DISCONNECTED then
    ({ p with cnt := DISCONNECTED }, DISCONNECTED)
  else
    ({ p with cnt := prev + 1 }, prev)

/-- `Packet::decrement`: fold `steals` into `cnt` via
`fetch_sub(1 + steals)`, resetting `steals` to 0, re-storing `DISCONNECTED`
if the previous value was `DISCONNECTED`.  The source asserts the fetched
value is `>= 0` in the non-disconnected case; a violated assertion aborts,
modelled as `none`.  Returns whether the receiver should block. -/
def Packet.decrement (p : Packet) : Option (Packet × Bool) :=
  let steals := p.steals
  let prev := p.cnt
  if prev = DISCONNECTED then
    some ({ p with steals := 0, cnt := DISCONNECTED }, false)
  else if 0 ≤ prev then
    some ({ p with steals := 0, cnt := prev - (1 + steals) },
          decide (prev - steals ≤ 0))
  else
    none

/-- `Packet::abort_selection`: load `cnt`, compute the steal lump
(`-cnt` when negative and not disconnected, else 0), `fetch_add(steals + 1)`,
early-return `true` re-storing the sentinel when previously disconnected;
otherwise assert the new count is non-negative, reclaim (`take_to_wake`) or
check emptiness of the wake slot when the previous count was `≤ -1`, assert
the stored `steals` field was 0, record the lump as the new `steals`, and
return whether the previous count was non-negative.

`abortStep` is the wake-slot part: when the previous count was `≤ -1` the
receiver owns the `-1` boundary, so with `take_to_wake` it reclaims and
trashes the handle (aborting if the slot is empty), and without it asserts
the slot is already empty (some sender took it). -/
def abortStep (p : Packet) (cur : Int) (take_to_wake : Bool) :
    Option (Packet × List WakeAction) :=
  if p.cnt ≤ -1 then
    if take_to_wake then
      match p.to_wake with
      | none => none
      | some _ => some ({ p with cnt := cur, to_wake := none },
                        [WakeAction.trash])
    else
      if p.to_wake.isSome then none
      else some ({ p with cnt := cur }, [])
  else
    some ({ p with cnt := cur }, [])

def Packet.abort_selection (p : Packet) (take_to_wake : Bool) :
    Option (Packet × List WakeAction × Bool) :=
  let steals := if p.cnt < 0 ∧ p.cnt ≠ DISCONNECTED then -p.cnt else 0
  let prev := p.cnt
  if prev = DISCONNECTED then
    some ({ p with cnt := DISCONNECTED }, [], true)
  else
    let cur := prev + steals + 1
    if cur < 0 then
      none
    else
      match abortStep p cur take_to_wake with
      | none => none
      | some (p1, acts) =>
        if p.steals = 0 then
          some ({ p1 with steals := steals }, acts, decide (0 ≤ prev))
        else
          none

/-- `Packet::drop_chan`: `fetch_sub(1)` on `channels`; on the 1→0
transition, swap `cnt` with `DISCONNECTED` and, if the swapped-out value was
`-1`, take the wake slot and wake with `can_resched = false`; a swapped-out
value other than `-1`/`DISCONNECTED` must be `≥ 0`; a previous `channels`
value `≤ 0` is `fail!`. -/
def Packet.drop_chan (p : Packet) : Option (Packet × List WakeAction) :=
  let prevch := p.channels
  let p1 : Packet := { p with channels := prevch - 1 }
  if prevch = 1 then
    let prev := p1.cnt
    let p2 : Packet := { p1 with cnt := DISCONNECTED }
    if prev = -1 then
      match p2.to_wake with
      | none => none
      | some _ => some ({ p2 with to_wake := none }, [WakeAction.wake false])
    else if prev = DISCONNECTED then
      some (p2, [])
    else if 0 ≤ prev then
      some (p2, [])
    else
      none
  else if 1 < prevch then
    some (p1, [])
  else
    none

/-- Effect of `SharedChan::clone` on the shared packet:
`channels.fetch_add(1)`. -/
def Packet.clone_chan (p : Packet) : Packet :=
  { p with channels := p.channels + 1 }

/-- `Port::can_recv`: `cnt == DISCONNECTED || cnt - steals > 0`. -/
def Packet.can_recv (p : Packet) : Bool :=
  decide (p.cnt = DISCONNECTED ∨ 0 < p.cnt - p.steals)

/-- `Chan::try` (SPSC sender), after the unconditional queue push, at the
packet level.  `queue_is_empty` abstracts `self.queue.is_empty()` as
evaluated in the `DISCONNECTED` arm.  Matches on `increment()`'s previous
value: `-1` wakes (aborting if the slot is empty), `-2` is a legitimate
selection transient, `DISCONNECTED` reports `is_empty()`, any other value
first maybe-yields (when `can_resched` and positive and a multiple of
`RESCHED_FREQ`) and then must be non-negative. -/
def chanTry (p : Packet) (can_resched : Bool) (queue_is_empty : Bool) :
    Option (Packet × List WakeAction × Bool) :=
  let r := p.increment
  let p1 := r.1
  let prev := r.2
  if prev = -1 then
    match p1.to_wake with
    | none => none
    | some _ => some ({ p1 with to_wake := none },
                      [WakeAction.wake can_resched], true)
  else if prev = -2 then
    some (p1, [], true)
  else if prev = DISCONNECTED then
    some (p1, [], queue_is_empty)
  else
    let evs := if can_resched = true ∧ 0 < prev ∧ prev % RESCHED_FREQ = 0 then
                 [WakeAction.maybeYield]
               else []
    if 0 ≤ prev then some (p1, evs, true) else none

/-- `SharedChan::try` (MPSC sender) at the packet level.  Same as `chanTry`
except that there is no `-2` arm and no `assert!(n >= 0)` on the fall-through
arm. -/
def sharedChanTry (p : Packet) (can_resched : Bool) (queue_is_empty : Bool) :
    Option (Packet × List WakeAction × Bool) :=
  let r := p.increment
  let p1 := r.1
  let prev := r.2
  if prev = DISCONNECTED then
    some (p1, [], queue_is_empty)
  else if prev = -1 then
    match p1.to_wake with
    | none => none
    | some _ => some ({ p1 with to_wake := none },
                      [WakeAction.wake can_resched], true)
  else
    let evs := if can_resched = true ∧ 0 < prev ∧ prev % RESCHED_FREQ = 0 then
                 [WakeAction.maybeYield]
               else []
    some (p1, evs, true)

/-- One endpoint's view of a channel in the sequential model: the shared
packet plus the queue contents (pop = head). -/
structure ChanState (α : Type) where
  packet : Packet
  queue : List α
deriving DecidableEq

/-- `Port::try_recv`: pop the queue; on success, bump the receiver-private
`steals` counter.  Never blocks, never fails. -/
def try_recv {α : Type} (c : ChanState α) : ChanState α × Option α :=
  match c.queue with
  | [] => (c, none)
  | x :: rest =>
    ({ packet := { c.packet with steals := c.packet.steals + 1 },
       queue := rest }, some x)

/-- Outcome of a receiver operation in the sequential model: a normal
return with the post-state, a suspension awaiting a sender's wake, or an
aborted run (`fail!` / violated assertion). -/
inductive RecvOutcome (α : Type) where
  | ret (c : ChanState α) (v : Option α)
  | blocked (c : ChanState α)
  | abort
deriving DecidableEq

/-- `Port::recv_opt`: optimistic `try_recv`; if empty, enter
`BlockingContext::one` with `ctx.block(data, to_wake, decrement)`:
assert the wake slot is empty, install a handle, run `decrement()`;
if it says block, suspend; otherwise the slot is taken back and the queue
is popped again (without touching `steals`); returning no data while the
packet is not `DISCONNECTED` is `fail!("bug: woke up too soon")`. -/
def recv_opt {α : Type} (c : ChanState α) : RecvOutcome α :=
  match try_recv c with
  | (c1, some v) => RecvOutcome.ret c1 (some v)
  | (c1, none) =>
    if c1.packet.to_wake.isSome then RecvOutcome.abort
    else
      let pIn : Packet := { c1.packet with to_wake := some () }
      match pIn.decrement with
      | none => RecvOutcome.abort
      | some (p2, shouldBlock) =>
        if shouldBlock then
          RecvOutcome.blocked { c1 with packet := p2 }
        else
          let p3 : Packet := { p2 with to_wake := none }
          match c1.queue with
          | [] =>
            if p3.cnt = DISCONNECTED then
              RecvOutcome.ret { packet := p3, queue := [] } none
            else
              RecvOutcome.abort
          | x :: rest =>
            RecvOutcome.ret { packet := p3, queue := rest } (some x)

/-- The fast-path scan of `select`: index of the first port whose
`can_recv()` holds. -/
def firstReady : List Packet → Option Nat
  | [] => none
  | p :: rest =>
    if p.can_recv then some 0
    else (firstReady rest).map (· + 1)

/-- The registration loop of `select` (the `BlockingContext::many`
closure): for each packet in order, `ctx.block` asserts the wake slot is
empty, installs a handle and runs `decrement()`; the first packet whose
`decrement` says not to block has its slot cleared, gets
`abort_selection(false)`, and its index is recorded as the tentative ready
index, stopping the loop.  Returns the updated packets and
`some ready_index`, or `none` as the second component when every
registration committed (the caller blocks). -/
def registerLoop : List Packet → Option (List Packet × Option Nat)
  | [] => some ([], none)
  | p :: rest =>
    if p.to_wake.isSome then none
    else
      let pIn : Packet := { p with to_wake := some () }
      match pIn.decrement with
      | none => none
      | some (p2, shouldBlock) =>
        if shouldBlock then
          match registerLoop rest with
          | none => none
          | some (rest2, r) => some (p2 :: rest2, r.map (· + 1))
        else
          let p3 : Packet := { p2 with to_wake := none }
          match p3.abort_selection false with
          | none => none
          | some (p4, _, _) => some (p4 :: rest, some 0)

/-- The tear-down walk of `select`: `abort_selection(true)` on every packet
of the registered strict prefix.  The source walks the prefix in reverse and
overwrites `ready_index` on every `true` answer, so the surviving index is
the first (smallest) one whose `abort_selection` reported data; the packets
are independent, so a left-to-right pass computing the first `true` index is
the same function. -/
def teardown : List Packet → Option (List Packet × Option Nat)
  | [] => some ([], none)
  | p :: rest =>
    match p.abort_selection true with
    | none => none
    | some (p2, _, b) =>
      match teardown rest with
      | none => none
      | some (rest2, r) =>
        some (p2 :: rest2, if b then some 0 else r.map (· + 1))

/-- Outcome of `select` in the sequential model. -/
inductive SelectOutcome where
  | ret (ps : List Packet) (idx : Nat)
  | blocked (ps : List Packet)
  | abort
deriving DecidableEq

/-- The slow path of `select` after no port passed the fast-path scan:
register against every packet in order; if all registrations commit the
caller blocks; otherwise tear down the registered prefix and return the
refined ready index (`assert!(ready_index < ports.len())` holds by
construction). -/
def selectSlow (ps : List Packet) : SelectOutcome :=
  match registerLoop ps with
  | none => SelectOutcome.abort
  | some (ps2, none) => SelectOutcome.blocked ps2
  | some (ps2, some i) =>
    match teardown (ps2.take i) with
    | none => SelectOutcome.abort
    | some (front, r) =>
      SelectOutcome.ret (front ++ ps2.drop i) (r.getD i)

/-- `select(ports)`: assert non-emptiness, scan for a port whose
`can_recv()` holds and return its index immediately, else run the blocking
protocol. -/
def select (ps : List Packet) : SelectOutcome :=
  if ps.isEmpty then SelectOutcome.abort
  else
    match firstReady ps with
    | some i => SelectOutcome.ret ps i
    | none => selectSlow ps

/-- Default packet used to read list elements by index in statements. -/
def pd : Packet := { cnt := 0, steals := 0, to_wake := none, channels := 1 }

/-! ### Basic facts about the sentinel -/

theorem disc_lt_zero : DISCONNECTED < 0 := by norm_num [DISCONNECTED]

theorem disc_ne_neg_one : DISCONNECTED ≠ -1 := by norm_num [DISCONNECTED]

theorem disc_ne_neg_two : DISCONNECTED ≠ -2 := by norm_num [DISCONNECTED]

theorem disc_not_nonneg : ¬ (0 : Int) ≤ DISCONNECTED := by
  norm_num [DISCONNECTED]

/-! ### Claims about the packet state machine -/

/-- C1.  `Packet::decrement` merges the pending steals into the shared
count by adding `-(1 + steals)` (preserving `DISCONNECTED`), resets
`steals` to zero, and (when it returns, i.e. its internal assertion does
not abort) reports `true` exactly when the channel was live and the new
effective count — the new count with the receiver's own parking token
discounted, `cnt + 1` — is at most zero. -/
theorem decrement_spec (p p2 : Packet) (b : Bool)
    (h : p.decrement = some (p2, b)) :
    p2.steals = 0 ∧
    (p.cnt = DISCONNECTED → p2.cnt = DISCONNECTED) ∧
    (p.cnt ≠ DISCONNECTED → p2.cnt = p.cnt - (1 + p.steals)) ∧
    (b = true ↔ (p.cnt ≠ DISCONNECTED ∧ p2.cnt + 1 ≤ 0)) := by
  by_cases hD : p.cnt = DISCONNECTED
  · simp only [Packet.decrement] at h
    rw [if_pos hD] at h
    rw [Option.some.injEq, Prod.mk.injEq] at h
    obtain ⟨rfl, rfl⟩ := h
    refine ⟨rfl, fun _ => rfl, fun hh => (hh hD).elim, ?_⟩
    simp [hD]
  · by_cases h0 : (0 : Int) ≤ p.cnt
    · simp only [Packet.decrement] at h
      rw [if_neg hD, if_pos h0] at h
      rw [Option.some.injEq, Prod.mk.injEq] at h
      obtain ⟨rfl, rfl⟩ := h
      refine ⟨rfl, fun hh => (hD hh).elim, fun _ => rfl, ?_⟩
      simp only [decide_eq_true_eq]
      constructor
      · intro hle
        exact ⟨hD, by omega⟩
      · intro hh
        omega
    · simp only [Packet.decrement] at h
      rw [if_neg hD, if_neg h0] at h
      exact (Option.noConfusion h)

theorem decrement_spec_witness :
    ({ cnt := 5, steals := 2, to_wake := none, channels := 1 } :
        Packet).decrement
      = some ({ cnt := 2, steals := 0, to_wake := none, channels := 1 },
              false) ∧
    ({ cnt := 2, steals := 0, to_wake := none, channels := 1 } :
        Packet).steals = 0 := by
  have h :
      ({ cnt := 5, steals := 2, to_wake := none, channels := 1 } :
          Packet).decrement
        = some ({ cnt := 2, steals := 0, to_wake := none, channels := 1 },
                false) := by decide
  exact ⟨h, (decrement_spec _ _ _ h).1⟩

/-- C9.  The internal `assert!(n >= 0)` of `Packet::decrement` cannot fire
when the count is non-negative or `DISCONNECTED` at entry (the operation
returns); for any other negative count the operation aborts. -/
theorem decrement_assert_spec (p : Packet) :
    ((0 ≤ p.cnt ∨ p.cnt = DISCONNECTED) → (p.decrement).isSome = true) ∧
    (p.cnt < 0 ∧ p.cnt ≠ DISCONNECTED → p.decrement = none) := by
  constructor
  · intro h
    by_cases hD : p.cnt = DISCONNECTED
    · simp [Packet.decrement, hD]
    · rcases h with h0 | h0
      · simp [Packet.decrement, hD, h0]
      · exact (hD h0).elim
  · rintro ⟨h1, h2⟩
    simp [Packet.decrement, h2, h1, not_le.mpr h1]

theorem decrement_assert_witness :
    (({ cnt := 5, steals := 0, to_wake := none, channels := 1 } :
        Packet).decrement).isSome = true ∧
    ({ cnt := -3, steals := 0, to_wake := none, channels := 1 } :
        Packet).decrement = none :=
  ⟨(decrement_assert_spec
      { cnt := 5, steals := 0, to_wake := none, channels := 1 }).1
      (Or.inl (by decide)),
   (decrement_assert_spec
      { cnt := -3, steals := 0, to_wake := none, channels := 1 }).2
      ⟨by decide, by decide⟩⟩

/-- C10.  `SharedChan::clone` bumps the producer reference count
`channels` by exactly one and leaves every other packet field — the count,
the steals counter and the wake slot — unchanged. -/
theorem clone_chan_spec (p : Packet) :
    (p.clone_chan).channels = p.channels + 1 ∧
    (p.clone_chan).cnt = p.cnt ∧
    (p.clone_chan).steals = p.steals ∧
    (p.clone_chan).to_wake = p.to_wake :=
  ⟨rfl, rfl, rfl, rfl⟩

/-- C3.  `DISCONNECTED` is terminal: if the count is `DISCONNECTED` before
`increment`, `decrement`, `abort_selection` or `drop_chan`, it is still
`DISCONNECTED` whenever the operation completes. -/
theorem disconnected_terminal (p : Packet) (h : p.cnt = DISCONNECTED) :
    (p.increment).1.cnt = DISCONNECTED ∧
    (∀ p2 b, p.decrement = some (p2, b) → p2.cnt = DISCONNECTED) ∧
    (∀ t p2 acts b, p.abort_selection t = some (p2, acts, b) →
       p2.cnt = DISCONNECTED) ∧
    (∀ p2 acts, p.drop_chan = some (p2, acts) → p2.cnt = DISCONNECTED) := by
  refine ⟨?_, ?_, ?_, ?_⟩
  · simp [Packet.increment, h]
  · intro p2 b hd
    simp only [Packet.decrement] at hd
    rw [if_pos h] at hd
    rw [Option.some.injEq, Prod.mk.injEq] at hd
    obtain ⟨rfl, rfl⟩ := hd
    rfl
  · intro t p2 acts b ha
    simp only [Packet.abort_selection] at ha
    rw [if_pos h] at ha
    rw [Option.some.injEq, Prod.mk.injEq] at ha
    obtain ⟨rfl, -⟩ := ha
    rfl
  · intro p2 acts hd
    by_cases hc : p.channels = 1
    · simp only [Packet.drop_chan] at hd
      rw [if_pos hc] at hd
      rw [if_neg (h ▸ disc_ne_neg_one)] at hd
      rw [if_pos h] at hd
      rw [Option.some.injEq, Prod.mk.injEq] at hd
      obtain ⟨rfl, -⟩ := hd
      rfl
    · by_cases hgt : 1 < p.channels
      · simp only [Packet.drop_chan] at hd
        rw [if_neg hc, if_pos hgt] at hd
        rw [Option.some.injEq, Prod.mk.injEq] at hd
        obtain ⟨rfl, -⟩ := hd
        exact h
      · simp [Packet.drop_chan, hc, hgt] at hd

theorem disconnected_terminal_witness :
    ((({ cnt := DISCONNECTED, steals := 0, to_wake := none, channels := 1 } :
        Packet).increment).1).cnt = DISCONNECTED :=
  (disconnected_terminal
    { cnt := DISCONNECTED, steals := 0, to_wake := none, channels := 1 }
    rfl).1

/-- C6.  `Packet::drop_chan` decrements the producer reference count;
exactly on the 1→0 transition it swaps the count with `DISCONNECTED`, and
when the swapped-out value was `-1` it takes the wake slot and wakes the
receiver with `can_resched = false`; away from the transition nothing else
changes and no wake fires. -/
theorem drop_chan_spec (p p2 : Packet) (acts : List WakeAction)
    (h : p.drop_chan = some (p2, acts)) :
    p2.channels = p.channels - 1 ∧
    (p.channels = 1 →
       p2.cnt = DISCONNECTED ∧
       (p.cnt = -1 → p2.to_wake = none ∧ acts = [WakeAction.wake false]) ∧
       (p.cnt ≠ -1 → acts = [] ∧ p2.to_wake = p.to_wake)) ∧
    (p.channels ≠ 1 →
       p2.cnt = p.cnt ∧ p2.steals = p.steals ∧
       p2.to_wake = p.to_wake ∧ acts = []) := by
  by_cases hc : p.channels = 1
  · by_cases h1 : p.cnt = -1
    · rcases hw : p.to_wake with - | u
      · simp [Packet.drop_chan, hc, h1, hw] at h
      · simp [Packet.drop_chan, hc, h1, hw] at h
        obtain ⟨rfl, rfl⟩ := h
        refine ⟨by simp [hc], fun _ => ⟨rfl, fun _ => ⟨rfl, rfl⟩,
          fun hne => (hne h1).elim⟩, fun hne => (hne hc).elim⟩
    · by_cases hD : p.cnt = DISCONNECTED
      · simp [Packet.drop_chan, hc, hD, disc_ne_neg_one] at h
        obtain ⟨rfl, rfl⟩ := h
        exact ⟨by simp [hc], fun _ => ⟨rfl, fun he => (h1 he).elim,
          fun _ => ⟨rfl, rfl⟩⟩, fun hne => (hne hc).elim⟩
      · by_cases h0 : (0 : Int) ≤ p.cnt
        · simp [Packet.drop_chan, hc, h1, hD, h0] at h
          obtain ⟨rfl, rfl⟩ := h
          exact ⟨by simp [hc], fun _ => ⟨rfl, fun he => (h1 he).elim,
            fun _ => ⟨rfl, rfl⟩⟩, fun hne => (hne hc).elim⟩
        · simp [Packet.drop_chan, hc, h1, hD, h0] at h
  · by_cases hgt : 1 < p.channels
    · simp [Packet.drop_chan, hc, hgt] at h
      obtain ⟨rfl, rfl⟩ := h
      exact ⟨rfl, fun he => (hc he).elim,
        fun _ => ⟨rfl, rfl, rfl, rfl⟩⟩
    · simp [Packet.drop_chan, hc, hgt] at h

theorem drop_chan_spec_witness :
    ({ cnt := -1, steals := 0, to_wake := some (), channels := 1 } :
        Packet).drop_chan
      = some ({ cnt := DISCONNECTED, steals := 0, to_wake := none,
                channels := 0 }, [WakeAction.wake false]) ∧
    ({ cnt := DISCONNECTED, steals := 0, to_wake := none, channels := 0 } :
        Packet).cnt = DISCONNECTED := by
  have h :
      ({ cnt := -1, steals := 0, to_wake := some (), channels := 1 } :
          Packet).drop_chan
        = some ({ cnt := DISCONNECTED, steals := 0, to_wake := none,
                  channels := 0 }, [WakeAction.wake false]) := by decide
  exact ⟨h, ((drop_chan_spec _ _ _ h).2.1 rfl).1⟩

/-- C2 counterexample.  On a disconnected packet, `abort_selection`
returns `true` although the count prior to the atomic add was negative
(`DISCONNECTED < 0`), and it leaves the `steals` field at its old value 5
instead of recording the surplus 0: the early `DISCONNECTED` return skips
both the "iff non-negative" rule and the steals update claimed. -/
theorem abort_selection_cex :
    Packet.abort_selection
        { cnt := DISCONNECTED, steals := 5, to_wake := none, channels := 1 }
        true
      = some ({ cnt := DISCONNECTED, steals := 5, to_wake := none,
                channels := 1 }, [], true) ∧
    DISCONNECTED < 0 ∧ (5 : Int) ≠ 0 := by
  refine ⟨by decide, disc_lt_zero, by decide⟩

/-- C2 (amended).  When the count is not `DISCONNECTED`,
`Packet::abort_selection` computes `surplus = max 0 (-cnt)`, atomically
adds `surplus + 1`, records `surplus` as the new `steals`, and (when it
completes) returns `true` iff the prior count was non-negative; when the
count is `DISCONNECTED` it preserves the count, leaves `steals` unchanged,
and returns `true`. -/
theorem abortStep_some (p : Packet) (cur : Int) (t : Bool) (p1 : Packet)
    (acts : List WakeAction) (h : abortStep p cur t = some (p1, acts)) :
    p1.cnt = cur ∧ p1.steals = p.steals ∧ p1.channels = p.channels := by
  simp only [abortStep] at h
  by_cases hneg : p.cnt ≤ -1
  · rw [if_pos hneg] at h
    cases t
    · rw [if_neg Bool.false_ne_true] at h
      by_cases hw : (p.to_wake).isSome
      · rw [if_pos hw] at h
        exact Option.noConfusion h
      · rw [if_neg hw] at h
        rw [Option.some.injEq, Prod.mk.injEq] at h
        obtain ⟨rfl, rfl⟩ := h
        exact ⟨rfl, rfl, rfl⟩
    · rw [if_pos rfl] at h
      rcases hw : p.to_wake with - | u
      · simp only [hw] at h
        exact Option.noConfusion h
      · simp only [hw] at h
        rw [Option.some.injEq, Prod.mk.injEq] at h
        obtain ⟨rfl, rfl⟩ := h
        exact ⟨rfl, rfl, rfl⟩
  · rw [if_neg hneg] at h
    rw [Option.some.injEq, Prod.mk.injEq] at h
    obtain ⟨rfl, rfl⟩ := h
    exact ⟨rfl, rfl, rfl⟩

/-- C2 (amended).  When the count is not `DISCONNECTED`,
`Packet::abort_selection` computes `surplus = max 0 (-cnt)`, atomically
adds `surplus + 1`, records `surplus` as the new `steals`, and (when it
completes) returns `true` iff the prior count was non-negative; when the
count is `DISCONNECTED` it preserves the count, leaves `steals` unchanged,
and returns `true`. -/
theorem abort_selection_spec (p : Packet) (t : Bool) (p2 : Packet)
    (acts : List WakeAction) (b : Bool)
    (h : p.abort_selection t = some (p2, acts, b)) :
    (p.cnt = DISCONNECTED →
       p2.cnt = DISCONNECTED ∧ p2.steals = p.steals ∧ b = true) ∧
    (p.cnt ≠ DISCONNECTED →
       p2.cnt = p.cnt + max 0 (-p.cnt) + 1 ∧
       p2.steals = max 0 (-p.cnt) ∧
       (b = true ↔ 0 ≤ p.cnt)) := by
  by_cases hD : p.cnt = DISCONNECTED
  · simp only [Packet.abort_selection] at h
    rw [if_pos hD] at h
    rw [Option.some.injEq, Prod.mk.injEq, Prod.mk.injEq] at h
    obtain ⟨rfl, -, rfl⟩ := h
    exact ⟨fun _ => ⟨rfl, rfl, rfl⟩, fun hne => (hne hD).elim⟩
  · have hmax : (if p.cnt < 0 ∧ p.cnt ≠ DISCONNECTED then -p.cnt else 0)
        = max 0 (-p.cnt) := by
      by_cases hneg : p.cnt < 0
      · rw [if_pos ⟨hneg, hD⟩]
        omega
      · rw [if_neg (fun hh => hneg hh.1)]
        omega
    simp only [Packet.abort_selection, hmax] at h
    rw [if_neg hD] at h
    by_cases hcur : p.cnt + max 0 (-p.cnt) + 1 < 0
    · rw [if_pos hcur] at h
      exact (Option.noConfusion h)
    · rw [if_neg hcur] at h
      rcases hstep : abortStep p (p.cnt + max 0 (-p.cnt) + 1) t
        with - | ⟨p1, acts1⟩
      · simp only [hstep] at h
        exact Option.noConfusion h
      · simp only [hstep] at h
        by_cases hs : p.steals = 0
        · rw [if_pos hs] at h
          rw [Option.some.injEq, Prod.mk.injEq, Prod.mk.injEq] at h
          obtain ⟨rfl, rfl, rfl⟩ := h
          obtain ⟨hc1, -, -⟩ := abortStep_some _ _ _ _ _ hstep
          refine ⟨fun he => (hD he).elim, fun _ => ⟨?_, rfl, ?_⟩⟩
          · simpa using hc1
          · simp only [decide_eq_true_eq]
        · rw [if_neg hs] at h
          exact (Option.noConfusion h)

theorem abort_selection_spec_witness :
    Packet.abort_selection
        { cnt := -3, steals := 0, to_wake := some (), channels := 1 } true
      = some ({ cnt := 1, steals := 3, to_wake := none, channels := 1 },
              [WakeAction.trash], false) ∧
    (1 : Int) = -3 + max 0 (-(-3)) + 1 ∧
    (3 : Int) = max 0 (-(-3)) := by
  have h :
      Packet.abort_selection
          { cnt := -3, steals := 0, to_wake := some (), channels := 1 } true
        = some ({ cnt := 1, steals := 3, to_wake := none, channels := 1 },
                [WakeAction.trash], false) := by decide
  have h2 := (abort_selection_spec _ true _ _ _ h).2 (by decide)
  exact ⟨h, h2.1.symm, h2.2.1.symm⟩

/-- C7 counterexample.  A rescheduling send on a packet whose count is 0
does not yield, although 0 is non-negative, a multiple of `RESCHED_FREQ`,
and rescheduling is permitted: the source guards the yield with `n > 0`,
not `n >= 0`. -/
theorem chan_try_cex :
    chanTry { cnt := 0, steals := 0, to_wake := none, channels := 1 }
        true true
      = some ({ cnt := 1, steals := 0, to_wake := none, channels := 1 },
              [], true) ∧
    (0 : Int) ≤ 0 ∧ (0 : Int) % RESCHED_FREQ = 0 := by
  decide

/-- C7 (amended).  In both `Chan::try` and `SharedChan::try` (when the
call completes), a voluntary yield occurs exactly when rescheduling is
permitted and the previous count returned by `increment` is positive and a
multiple of `RESCHED_FREQ = 200`; in particular the deferred variants
(`can_resched = false`) never yield. -/
theorem try_yield_spec (p : Packet) (cr qe : Bool) (p2 : Packet)
    (acts : List WakeAction) (b : Bool) :
    (chanTry p cr qe = some (p2, acts, b) →
       (WakeAction.maybeYield ∈ acts ↔
         (cr = true ∧ 0 < (p.increment).2 ∧
          (p.increment).2 % RESCHED_FREQ = 0))) ∧
    (sharedChanTry p cr qe = some (p2, acts, b) →
       (WakeAction.maybeYield ∈ acts ↔
         (cr = true ∧ 0 < (p.increment).2 ∧
          (p.increment).2 % RESCHED_FREQ = 0))) := by
  constructor
  · intro h
    simp only [chanTry] at h
    by_cases hD : p.cnt = DISCONNECTED
    · have hprev : (p.increment).2 = DISCONNECTED := by
        simp [Packet.increment, hD]
      rw [hprev] at h ⊢
      rw [if_neg disc_ne_neg_one, if_neg disc_ne_neg_two, if_pos rfl] at h
      rw [Option.some.injEq, Prod.mk.injEq, Prod.mk.injEq] at h
      obtain ⟨-, rfl, -⟩ := h
      refine ⟨fun hmem => absurd hmem (List.not_mem_nil _), ?_⟩
      rintro ⟨-, hlt, -⟩
      exact absurd hlt (not_lt.mpr disc_lt_zero.le)
    · have hprev : (p.increment).2 = p.cnt := by
        simp [Packet.increment, hD]
      rw [hprev] at h ⊢
      by_cases h1 : p.cnt = -1
      · rw [if_pos h1] at h
        rcases hwk : (p.increment).1.to_wake with - | u
        · simp only [hwk] at h
          exact Option.noConfusion h
        · simp only [hwk] at h
          rw [Option.some.injEq, Prod.mk.injEq, Prod.mk.injEq] at h
          obtain ⟨-, rfl, -⟩ := h
          simp [h1]
      · by_cases h2 : p.cnt = -2
        · rw [if_neg h1, if_pos h2] at h
          rw [Option.some.injEq, Prod.mk.injEq, Prod.mk.injEq] at h
          obtain ⟨-, rfl, -⟩ := h
          simp [h2]
        · rw [if_neg h1, if_neg h2, if_neg hD] at h
          by_cases h0 : (0 : Int) ≤ p.cnt
          · rw [if_pos h0] at h
            rw [Option.some.injEq, Prod.mk.injEq, Prod.mk.injEq] at h
            obtain ⟨-, rfl, -⟩ := h
            by_cases hY : cr = true ∧ 0 < p.cnt ∧ p.cnt % RESCHED_FREQ = 0
            · simp [hY]
            · simp only [if_neg hY]
              simp only [List.not_mem_nil, false_iff]
              exact fun hh => hY hh
          · rw [if_neg h0] at h
            exact Option.noConfusion h
  · intro h
    simp only [sharedChanTry] at h
    by_cases hD : p.cnt = DISCONNECTED
    · have hprev : (p.increment).2 = DISCONNECTED := by
        simp [Packet.increment, hD]
      rw [hprev] at h ⊢
      rw [if_pos rfl] at h
      rw [Option.some.injEq, Prod.mk.injEq, Prod.mk.injEq] at h
      obtain ⟨-, rfl, -⟩ := h
      refine ⟨fun hmem => absurd hmem (List.not_mem_nil _), ?_⟩
      rintro ⟨-, hlt, -⟩
      exact absurd hlt (not_lt.mpr disc_lt_zero.le)
    · have hprev : (p.increment).2 = p.cnt := by
        simp [Packet.increment, hD]
      rw [hprev] at h ⊢
      rw [if_neg hD] at h
      by_cases h1 : p.cnt = -1
      · rw [if_pos h1] at h
        rcases hwk : (p.increment).1.to_wake with - | u
        · simp only [hwk] at h
          exact Option.noConfusion h
        · simp only [hwk] at h
          rw [Option.some.injEq, Prod.mk.injEq, Prod.mk.injEq] at h
          obtain ⟨-, rfl, -⟩ := h
          simp [h1]
      · rw [if_neg h1] at h
        rw [Option.some.injEq, Prod.mk.injEq, Prod.mk.injEq] at h
        obtain ⟨-, rfl, -⟩ := h
        by_cases hY : cr = true ∧ 0 < p.cnt ∧ p.cnt % RESCHED_FREQ = 0
        · simp [hY]
        · simp only [if_neg hY]
          simp only [List.not_mem_nil, false_iff]
          exact fun hh => hY hh

theorem try_yield_witness :
    WakeAction.maybeYield ∈ [WakeAction.maybeYield] ↔
      (true = true ∧
       0 < (Packet.increment
         { cnt := 200, steals := 0, to_wake := none, channels := 1 }).2 ∧
       (Packet.increment
         { cnt := 200, steals := 0, to_wake := none, channels := 1 }).2 %
           RESCHED_FREQ = 0) :=
  (try_yield_spec
      { cnt := 200, steals := 0, to_wake := none, channels := 1 } true true
      { cnt := 201, steals := 0, to_wake := none, channels := 1 }
      [WakeAction.maybeYield] true).1 (by decide)

/-- C8.  `Port::try_recv` on an empty queue returns `None`, is idempotent,
and leaves the whole channel state (packet fields included) unchanged;
`steals` is incremented exactly on the calls that return data. -/
theorem try_recv_empty_spec {α : Type} (c : ChanState α)
    (hq : c.queue = []) (hD : c.packet.cnt ≠ DISCONNECTED) :
    try_recv c = (c, none) ∧
    try_recv (try_recv c).1 = (c, none) ∧
    (∀ d d2 : ChanState α, ∀ v, try_recv d = (d2, some v) →
       d2.packet.steals = d.packet.steals + 1 ∧
       d2.packet.cnt = d.packet.cnt ∧
       d2.packet.to_wake = d.packet.to_wake ∧
       d2.packet.channels = d.packet.channels) ∧
    (∀ d d2 : ChanState α, try_recv d = (d2, (none : Option α)) →
       d2 = d) := by
  have h1 : try_recv c = (c, none) := by
    rcases c with ⟨pk, q⟩
    simp only at hq
    subst hq
    rfl
  refine ⟨h1, by rw [h1]; exact h1, ?_, ?_⟩
  · intro d d2 v hd
    rcases d with ⟨pk, q⟩
    cases q with
    | nil => simp [try_recv] at hd
    | cons x rest =>
      simp only [try_recv] at hd
      rw [Prod.mk.injEq] at hd
      obtain ⟨rfl, -⟩ := hd
      exact ⟨rfl, rfl, rfl, rfl⟩
  · intro d d2 hd
    rcases d with ⟨pk, q⟩
    cases q with
    | nil =>
      simp only [try_recv] at hd
      rw [Prod.mk.injEq] at hd
      exact hd.1.symm
    | cons x rest => simp [try_recv] at hd

theorem try_recv_empty_witness :
    try_recv { packet := { cnt := 0, steals := 0, to_wake := none,
                           channels := 1 },
               queue := ([] : List Nat) }
      = ({ packet := { cnt := 0, steals := 0, to_wake := none,
                       channels := 1 }, queue := [] }, none) :=
  (try_recv_empty_spec _ rfl (by decide)).1

/-- C5.  `Port::recv_opt` returns `None` only with the packet
`DISCONNECTED` and the queue empty at the return; conversely, on a
disconnected packet with an empty queue (and an empty wake slot, which the
blocking protocol guarantees at entry) it returns `None`. -/
theorem recv_opt_spec {α : Type} (c : ChanState α) :
    (∀ c2, recv_opt c = RecvOutcome.ret c2 (none : Option α) →
       c2.packet.cnt = DISCONNECTED ∧ c2.queue = []) ∧
    (c.packet.cnt = DISCONNECTED → c.queue = [] →
       c.packet.to_wake = none →
       recv_opt c = RecvOutcome.ret
         { packet := { cnt := DISCONNECTED, steals := 0, to_wake := none,
                       channels := c.packet.channels }, queue := [] }
         none) := by
  rcases c with ⟨pk, q⟩
  cases q with
  | cons x rest =>
    constructor
    · intro c2 h
      simp [recv_opt, try_recv] at h
    · intro _ hq _
      exact absurd hq (List.cons_ne_nil x rest)
  | nil =>
    constructor
    · intro c2 h
      simp only [recv_opt, try_recv] at h
      split at h
      · exact RecvOutcome.noConfusion h
      · split at h
        · exact RecvOutcome.noConfusion h
        · split at h
          · exact RecvOutcome.noConfusion h
          · split at h
            case _ hd3 =>
              rw [RecvOutcome.ret.injEq] at h
              obtain ⟨rfl, -⟩ := h
              exact ⟨hd3, rfl⟩
            case _ => exact RecvOutcome.noConfusion h
    · intro hD hq hw
      simp only at hD hw
      simp [recv_opt, try_recv, hw, Packet.decrement, hD]

theorem recv_opt_spec_witness :
    recv_opt { packet := { cnt := DISCONNECTED, steals := 0,
                           to_wake := none, channels := 0 },
               queue := ([] : List Nat) }
      = RecvOutcome.ret
          { packet := { cnt := DISCONNECTED, steals := 0, to_wake := none,
                        channels := 0 }, queue := [] } none :=
  (recv_opt_spec _).2 rfl rfl rfl

/-! ### Lemmas about the selection scan, registration and tear-down -/

theorem firstReady_lt (ps : List Packet) (i : Nat)
    (h : firstReady ps = some i) : i < ps.length := by
  induction ps generalizing i with
  | nil => simp [firstReady] at h
  | cons p rest ih =>
    simp only [firstReady] at h
    by_cases hc : p.can_recv = true
    · rw [if_pos hc] at h
      rw [Option.some.injEq] at h
      subst h
      simp
    · rw [if_neg hc] at h
      rcases hr : firstReady rest with - | j
      · rw [hr] at h
        simp at h
      · rw [hr] at h
        simp only [Option.map_some'] at h
        rw [Option.some.injEq] at h
        subst h
        have := ih j hr
        simp only [List.length_cons]
        omega

theorem firstReady_can (ps : List Packet) (i : Nat)
    (h : firstReady ps = some i) : (ps.getD i pd).can_recv = true := by
  induction ps generalizing i with
  | nil => simp [firstReady] at h
  | cons p rest ih =>
    simp only [firstReady] at h
    by_cases hc : p.can_recv = true
    · rw [if_pos hc] at h
      rw [Option.some.injEq] at h
      subst h
      simpa using hc
    · rw [if_neg hc] at h
      rcases hr : firstReady rest with - | j
      · rw [hr] at h
        simp at h
      · rw [hr] at h
        simp only [Option.map_some'] at h
        rw [Option.some.injEq] at h
        subst h
        simpa using ih j hr

theorem firstReady_min (ps : List Packet) (i : Nat)
    (h : firstReady ps = some i) :
    ∀ k, k < i → (ps.getD k pd).can_recv = false := by
  induction ps generalizing i with
  | nil => simp [firstReady] at h
  | cons p rest ih =>
    simp only [firstReady] at h
    by_cases hc : p.can_recv = true
    · rw [if_pos hc] at h
      rw [Option.some.injEq] at h
      subst h
      intro k hk
      exact absurd hk (Nat.not_lt_zero k)
    · rw [if_neg hc] at h
      rcases hr : firstReady rest with - | j
      · rw [hr] at h
        simp at h
      · rw [hr] at h
        simp only [Option.map_some'] at h
        rw [Option.some.injEq] at h
        subst h
        intro k hk
        cases k with
        | zero => simpa using (Bool.not_eq_true _).mp hc
        | succ k2 =>
          have := ih j hr k2 (by omega)
          simpa using this

theorem firstReady_exists (ps : List Packet) (j : Nat)
    (hj : j < ps.length) (hc : (ps.getD j pd).can_recv = true) :
    ∃ i, firstReady ps = some i ∧ i ≤ j := by
  induction ps generalizing j with
  | nil => simp at hj
  | cons p rest ih =>
    by_cases hcp : p.can_recv = true
    · refine ⟨0, ?_, Nat.zero_le j⟩
      simp [firstReady, hcp]
    · cases j with
      | zero =>
        simp only [List.getD_cons_zero] at hc
        exact absurd hc hcp
      | succ j2 =>
        simp only [List.getD_cons_succ] at hc
        simp only [List.length_cons] at hj
        obtain ⟨i, hfi, hij⟩ := ih j2 (by omega) hc
        refine ⟨i + 1, ?_, by omega⟩
        simp [firstReady, hcp, hfi]

theorem registerLoop_lt (ps qs : List Packet) (i : Nat)
    (h : registerLoop ps = some (qs, some i)) : i < ps.length := by
  induction ps generalizing qs i with
  | nil => simp [registerLoop] at h
  | cons p rest ih =>
    simp only [registerLoop] at h
    by_cases hw : (p.to_wake).isSome = true
    · rw [if_pos hw] at h
      exact Option.noConfusion h
    · rw [if_neg hw] at h
      rcases hd : Packet.decrement { p with to_wake := some () }
        with - | ⟨p2, sb⟩
      · simp only [hd] at h
        exact Option.noConfusion h
      · simp only [hd] at h
        cases sb with
        | true =>
          rw [if_pos rfl] at h
          rcases hrl : registerLoop rest with - | ⟨rest2, r⟩
          · simp only [hrl] at h
            exact Option.noConfusion h
          · simp only [hrl] at h
            rw [Option.some.injEq, Prod.mk.injEq] at h
            obtain ⟨-, h2⟩ := h
            rcases r with - | j
            · simp at h2
            · simp only [Option.map_some'] at h2
              rw [Option.some.injEq] at h2
              subst h2
              have := ih rest2 j hrl
              simp only [List.length_cons]
              omega
        | false =>
          rw [if_neg Bool.false_ne_true] at h
          rcases ha : Packet.abort_selection { p2 with to_wake := none }
              false with - | ⟨p4, rest4⟩
          · simp only [ha] at h
            exact Option.noConfusion h
          · rcases rest4 with ⟨acts4, b4⟩
            simp only [ha] at h
            rw [Option.some.injEq, Prod.mk.injEq] at h
            obtain ⟨-, h2⟩ := h
            rw [Option.some.injEq] at h2
            subst h2
            simp

theorem teardown_lt (ps qs : List Packet) (r : Nat)
    (h : teardown ps = some (qs, some r)) : r < ps.length := by
  induction ps generalizing qs r with
  | nil => simp [teardown] at h
  | cons p rest ih =>
    simp only [teardown] at h
    rcases ha : Packet.abort_selection p true with - | ⟨p2, rest2⟩
    · simp only [ha] at h
      exact Option.noConfusion h
    · rcases rest2 with ⟨acts2, b2⟩
      simp only [ha] at h
      rcases htd : teardown rest with - | ⟨rest3, r3⟩
      · simp only [htd] at h
        exact Option.noConfusion h
      · simp only [htd] at h
        rw [Option.some.injEq, Prod.mk.injEq] at h
        obtain ⟨-, h2⟩ := h
        cases b2 with
        | true =>
          rw [if_pos rfl] at h2
          rw [Option.some.injEq] at h2
          subst h2
          simp
        | false =>
          rw [if_neg Bool.false_ne_true] at h2
          rcases r3 with - | j
          · simp at h2
          · simp only [Option.map_some'] at h2
            rw [Option.some.injEq] at h2
            subst h2
            have := ih rest3 j htd
            simp only [List.length_cons]
            omega

theorem selectSlow_ret_lt (ps qs : List Packet) (i : Nat)
    (h : selectSlow ps = SelectOutcome.ret qs i) : i < ps.length := by
  simp only [selectSlow] at h
  rcases hrl : registerLoop ps with - | ⟨ps2, ro⟩
  · simp only [hrl] at h
    exact SelectOutcome.noConfusion h
  · simp only [hrl] at h
    rcases ro with - | i0
    · exact SelectOutcome.noConfusion h
    · rcases htd : teardown (ps2.take i0) with - | ⟨front, r⟩
      · simp only [htd] at h
        exact SelectOutcome.noConfusion h
      · simp only [htd] at h
        rw [SelectOutcome.ret.injEq] at h
        obtain ⟨-, h2⟩ := h
        have hi0 : i0 < ps.length := registerLoop_lt ps ps2 i0 hrl
        rcases r with - | r0
        · simp only [Option.getD_none] at h2
          omega
        · simp only [Option.getD_some] at h2
          have hr0 : r0 < (ps2.take i0).length :=
            teardown_lt (ps2.take i0) front r0 htd
          have : (ps2.take i0).length ≤ i0 := by
            simp [List.length_take]
          omega

/-- C4.  `select` on a non-empty list of ports only ever returns an index
within bounds, and whenever some port already satisfies `can_recv()` at
entry it returns the smallest such index immediately — via the fast-path
scan, with every packet left untouched (no registration, no blocking). -/
theorem select_spec (ps : List Packet) (hne : ps ≠ []) :
    (∀ qs i, select ps = SelectOutcome.ret qs i → i < ps.length) ∧
    (∀ j, j < ps.length → (ps.getD j pd).can_recv = true →
       ∃ i, i ≤ j ∧ (ps.getD i pd).can_recv = true ∧
         (∀ k, k < i → (ps.getD k pd).can_recv = false) ∧
         select ps = SelectOutcome.ret ps i) := by
  have hE : ps.isEmpty = false := by
    cases ps with
    | nil => exact absurd rfl hne
    | cons p rest => rfl
  constructor
  · intro qs i h
    simp only [select, hE] at h
    rw [if_neg Bool.false_ne_true] at h
    rcases hf : firstReady ps with - | i0
    · simp only [hf] at h
      exact selectSlow_ret_lt ps qs i h
    · simp only [hf] at h
      rw [SelectOutcome.ret.injEq] at h
      obtain ⟨-, rfl⟩ := h
      exact firstReady_lt ps i0 hf
  · intro j hj hc
    obtain ⟨i, hfi, hij⟩ := firstReady_exists ps j hj hc
    refine ⟨i, hij, firstReady_can ps i hfi, firstReady_min ps i hfi, ?_⟩
    simp only [select, hE]
    rw [if_neg Bool.false_ne_true]
    simp only [hfi]

theorem select_spec_witness :
    ∃ i, i ≤ 0 ∧
      (([{ cnt := DISCONNECTED, steals := 0, to_wake := none,
           channels := 1 }] : List Packet).getD i pd).can_recv = true ∧
      (∀ k, k < i →
        (([{ cnt := DISCONNECTED, steals := 0, to_wake := none,
             channels := 1 }] : List Packet).getD k pd).can_recv = false) ∧
      select [{ cnt := DISCONNECTED, steals := 0, to_wake := none,
                channels := 1 }]
        = SelectOutcome.ret
            [{ cnt := DISCONNECTED, steals := 0, to_wake := none,
               channels := 1 }] i :=
  (select_spec
      [{ cnt := DISCONNECTED, steals := 0, to_wake := none,
         channels := 1 }]
      (List.cons_ne_nil _ _)).2 0 (by decide) (by decide)

end Comm
